import Mathlib

/-!
Verification of the assertion-analyzer scanner (`assertion-analyzer.py`).

The source text is modelled as a `List Char` with an integer cursor, exactly
as the Python code holds a `str` and an integer `self.position`.  The
tokenizer loops are written with an explicit fuel parameter (the Python
loops terminate because the cursor advances; fuel exhaustion is modelled by
the distinguished outcome `ScanErr.fuel`, which never occurs when enough
fuel is supplied).  `ParseError` exceptions of the Python code are modelled
by the `Except` error channel.
-/

namespace AssertionAnalyzer

/-- Python 2 `str.isspace()` on byte strings: the six ASCII whitespace characters. -/
def pyIsSpace (c : Char) : Bool :=
  c = ' ' || c = '\t' || c = '\n' || c = '\r' || c = '\x0b' || c = '\x0c'

/-- Python 2 `str.isalpha()` on byte strings (default locale): ASCII letters. -/
def pyIsAlpha (c : Char) : Bool :=
  ('a' ≤ c && c ≤ 'z') || ('A' ≤ c && c ≤ 'Z')

/-- Python 2 `str.isdigit()` on byte strings: ASCII digits. -/
def pyIsDigit (c : Char) : Bool :=
  '0' ≤ c && c ≤ '9'

/-- Python 2 `str.strip()`: drop leading and trailing whitespace. -/
def pyStrip (s : List Char) : List Char :=
  ((s.dropWhile pyIsSpace).reverse.dropWhile pyIsSpace).reverse

/-- `self.text.startswith(s, pos)`. -/
def startsWithAt (t : List Char) (s : List Char) (pos : Nat) : Bool :=
  (t.drop pos).take s.length == s

/-- `text[a:b]` for `a ≤ b` (the only way the source slices). -/
def slice (t : List Char) (a b : Nat) : List Char :=
  (t.drop a).take (b - a)

/--
The `Token` class together with the singleton token constants
`TOK_START` … `TOK_EQ`.  A token is its kind plus the exact text it was
lexed from; the structural kinds carry fixed text, so each is one
constructor.  `LT` and `GT` model the constants `TOK_LT` / `TOK_GT` of the
source (which `next_token` never produces).  Python compares tokens by
object identity; because each structural kind has a unique singleton and
`ID` / `STRING` / `OTHER` tokens never compare equal to a singleton, the
structural equality of this inductive coincides with it.
-/
inductive Token where
  | START
  | EOF
  | LBRACE
  | RBRACE
  | LPAREN
  | RPAREN
  | LBRACKET
  | RBRACKET
  | LT
  | GT
  | COMMA
  | COLON
  | COLON_COLON
  | SEMI
  | EQ
  | ID (text : List Char)
  | STRING (text : List Char)
  | OTHER (ch : Char)
deriving DecidableEq, Repr

/-- The exact source text of a token (`self.tok.text`). -/
def Token.text : Token → List Char
  | .START => []
  | .EOF => []
  | .LBRACE => ['\x7b']
  | .RBRACE => ['\x7d']
  | .LPAREN => ['(']
  | .RPAREN => [')']
  | .LBRACKET => ['[']
  | .RBRACKET => [']']
  | .LT => ['<']
  | .GT => ['>']
  | .COMMA => [',']
  | .COLON => [':']
  | .COLON_COLON => [':', ':']
  | .SEMI => [';']
  | .EQ => ['=']
  | .ID s => s
  | .STRING s => s
  | .OTHER c => [c]

/-- `Token.is_id`: kind is `ID` and the text matches. -/
def Token.is_id (tok : Token) (s : List Char) : Bool :=
  match tok with
  | .ID t => t == s
  | _ => false

/-- Kind test for the `OTHER` (one-character catch-all) kind. -/
def Token.isOther : Token → Bool
  | .OTHER _ => true
  | _ => false

/-- The `ParseError` class: a message and the offending offset. -/
structure ParseError where
  text : String
  offset : Nat
deriving DecidableEq, Repr

/-- Outcome channel: a raised `ParseError`, or fuel exhaustion (a modelling
artifact that never occurs when enough fuel is supplied). -/
inductive ScanErr where
  | parse (e : ParseError)
  | fuel
deriving DecidableEq, Repr

/-- Loop of `Tokenizer.find_comment_end`, scanning from `position` for `*/`;
`selfPos` is `self.position`, recorded in the error.  The loop advances the
cursor every iteration, so the ample fuel passed by the wrapper below never
runs out. -/
def findCommentEndAux (t : List Char) (selfPos : Nat) : Nat → Nat → Except ScanErr Nat
  | 0, _ => .error .fuel
  | fuel + 1, position =>
    if position < t.length then
      if startsWithAt t ['*', '/'] position then .ok (position + 2)
      else findCommentEndAux t selfPos fuel (position + 1)
    else .error (.parse ⟨"Unterminated comment", selfPos⟩)

/-- `Tokenizer.find_comment_end` (starts scanning at `self.position + 1`). -/
def findCommentEnd (t : List Char) (selfPos : Nat) : Except ScanErr Nat :=
  findCommentEndAux t selfPos (t.length + 1) (selfPos + 1)

/-- Loop of `Tokenizer.find_next_line` (fuel never runs out under the
wrapper's bound; the fallback returns the cursor unchanged). -/
def findNextLineAux (t : List Char) : Nat → Nat → Nat
  | 0, position => position
  | fuel + 1, position =>
    if position < t.length then
      if startsWithAt t ['\n'] position then position + 1
      else findNextLineAux t fuel (position + 1)
    else position

/-- `Tokenizer.find_next_line` (starts scanning at `self.position + 1`). -/
def findNextLine (t : List Char) (selfPos : Nat) : Nat :=
  findNextLineAux t (t.length + 1) (selfPos + 1)

/-- Loop of `Tokenizer.find_string_end`: a backslash skips two characters
regardless of what it escapes. -/
def findStringEndAux (t : List Char) (selfPos : Nat) : Nat → Nat → Except ScanErr Nat
  | 0, _ => .error .fuel
  | fuel + 1, position =>
    if h : position < t.length then
      if t[position] = '"' then .ok (position + 1)
      else if t[position] = '\\' then findStringEndAux t selfPos fuel (position + 2)
      else findStringEndAux t selfPos fuel (position + 1)
    else .error (.parse ⟨"Unterminated string", selfPos⟩)

/-- `Tokenizer.find_string_end` (starts scanning at `self.position + 1`). -/
def findStringEnd (t : List Char) (selfPos : Nat) : Except ScanErr Nat :=
  findStringEndAux t selfPos (t.length + 1) (selfPos + 1)

/-- Loop of `Tokenizer.find_identifier_end` (fuel never runs out under the
wrapper's bound). -/
def findIdentifierEndAux (t : List Char) : Nat → Nat → Nat
  | 0, position => position
  | fuel + 1, position =>
    if h : position < t.length then
      if pyIsAlpha t[position] || t[position] = '_' || pyIsDigit t[position] then
        findIdentifierEndAux t fuel (position + 1)
      else position
    else position

/-- `Tokenizer.find_identifier_end` (starts scanning at `self.position + 1`). -/
def findIdentifierEnd (t : List Char) (selfPos : Nat) : Nat :=
  findIdentifierEndAux t (t.length + 1) (selfPos + 1)

/--
`Tokenizer.next_token`, restricted to its lexing work: from cursor `pos` it
returns the next token together with the cursor just past that token's text
(`self.position += len(self.tok.text)`).  The branches are tried in the
source's order.  The surrounding "return the previous token" convention is
handled at the call sites (the scanner loops below), which keep the pair
(current token, cursor) as explicit state.  Whitespace and comments are
skipped by the recursive calls, which consume one unit of fuel each; when
the cursor is at (or beyond) the end of the text the `EOF` token is
produced, as in `if start == len(self.text)`.
-/
def nextToken (t : List Char) : Nat → Nat → Except ScanErr (Token × Nat)
  | 0, _ => .error .fuel
  | fuel + 1, pos =>
    if h : pos < t.length then
      if startsWithAt t ['('] pos then .ok (.LPAREN, pos + 1)
      else if startsWithAt t [')'] pos then .ok (.RPAREN, pos + 1)
      else if startsWithAt t ['\x7b'] pos then .ok (.LBRACE, pos + 1)
      else if startsWithAt t ['\x7d'] pos then .ok (.RBRACE, pos + 1)
      else if startsWithAt t ['['] pos then .ok (.LBRACKET, pos + 1)
      else if startsWithAt t [']'] pos then .ok (.RBRACKET, pos + 1)
      else if startsWithAt t [':', ':'] pos then .ok (.COLON_COLON, pos + 2)
      else if startsWithAt t [':'] pos then .ok (.COLON, pos + 1)
      else if startsWithAt t [';'] pos then .ok (.SEMI, pos + 1)
      else if startsWithAt t [','] pos then .ok (.COMMA, pos + 1)
      else if startsWithAt t ['"'] pos then
        match findStringEnd t pos with
        | .ok e => .ok (.STRING (slice t pos e), e)
        | .error er => .error er
      else if startsWithAt t ['/', '*'] pos then
        match findCommentEnd t pos with
        | .ok p2 => nextToken t fuel p2
        | .error er => .error er
      else if startsWithAt t ['/', '/'] pos then
        nextToken t fuel (findNextLine t pos)
      else if startsWithAt t ['='] pos then .ok (.EQ, pos + 1)
      else if pyIsSpace t[pos] then nextToken t fuel (pos + 1)
      else if pyIsAlpha t[pos] || t[pos] = '_' then
        .ok (.ID (slice t pos (findIdentifierEnd t pos)), findIdentifierEnd t pos)
      else .ok (.OTHER t[pos], pos + 1)
    else .ok (.EOF, pos)

/--
Loop of `Tokenizer.assertion_contents`: raw character scan from the cursor
(just past the macro's `(`), with a parenthesis-depth `counter` starting at
1; commas at depth 1 split segments, each segment is `strip()`ped; the
matching `)` finalizes the last segment and yields the cursor just past it.
String literals receive no special treatment here.  `start_position`
mutates when a segment is split, and is the offset reported by the
unclosed-parenthesis error, exactly as in the source.
-/
def assertionContentsAux (t : List Char) :
    Nat → Nat → Nat → Nat → List (List Char) → Except ScanErr (List (List Char) × Nat)
  | 0, _, _, _, _ => .error .fuel
  | fuel + 1, counter, position, start_position, contents =>
    if h : position < t.length then
      if t[position] = '(' then
        assertionContentsAux t fuel (counter + 1) (position + 1) start_position contents
      else if t[position] = ')' ∧ 1 < counter then
        assertionContentsAux t fuel (counter - 1) (position + 1) start_position contents
      else if t[position] = ')' then
        .ok (contents ++ [pyStrip (slice t start_position position)], position + 1)
      else if t[position] = ',' ∧ counter = 1 then
        assertionContentsAux t fuel counter (position + 1) (position + 1)
          (contents ++ [pyStrip (slice t start_position position)])
      else assertionContentsAux t fuel counter (position + 1) start_position contents
    else .error (.parse ⟨"Unclosed parenthesis", start_position⟩)

/-- `Tokenizer.assertion_contents`: precondition in the source is that the
current token is `(` and the cursor sits just past it; returns the trimmed
segments and the cursor just past the matching `)` (the caller resumes with
current token `)`).  The loop advances the cursor every iteration, so the
ample fuel never runs out. -/
def assertionContents (t : List Char) (pos : Nat) :
    Except ScanErr (List (List Char) × Nat) :=
  assertionContentsAux t (t.length + 1) 1 pos pos []

/-- The `Assertion` record. -/
structure Assertion where
  contents : List String
  file_name : String
  offset : Nat
  prelude : Bool
  stmts : Nat
deriving DecidableEq, Repr

/-- The condition `tok in [TOK_EQ, TOK_LPAREN] or tok.kind == 'OTHER'`
that clears the prelude flag in `Gather.function_body`. -/
def clearsTok : Token → Bool
  | .EQ => true
  | .LPAREN => true
  | .OTHER _ => true
  | _ => false

/-- `tok.is_id("NS_ASSERTION") or tok.is_id("JS_ASSERT")`. -/
def isAssertionMacro (tok : Token) : Bool :=
  tok.is_id "NS_ASSERTION".toList || tok.is_id "JS_ASSERT".toList

/--
`Gather.function_body`.  The loop state is the cursor `pos` and current
token `tok` of the tokenizer (the token the `while` condition inspects and
the next call to `next_token` will return), plus `nesting`, `stmts`
(`statements`) and the `prelude` flag; `acc` is `self.assertions`.  On a
recognized macro whose lookahead is `(`, the recorded offset is the cursor
just past that `(`, the argument list is captured, and the loop resumes
with current token `)` at the cursor past the matching `)` — exactly the
effect of `assertion_contents` on the tokenizer.  Returns the assertion
list and the tokenizer state at exit.
-/
def functionBody (fname : String) (t : List Char) :
    Nat → Nat → Token → Nat → Nat → Bool → List Assertion →
    Except ScanErr (List Assertion × Nat × Token)
  | fuel, pos, tok, nesting, stmts, prelude, acc =>
    if tok = Token.EOF then .ok (acc, pos, tok)
    else match fuel with
    | 0 => .error .fuel
    | fuel + 1 =>
      match nextToken t (t.length + 1) pos with
      | .error e => .error e
      | .ok (tok2, pos2) =>
        if tok = Token.RBRACE then
          if nesting - 1 = 0 then .ok (acc, pos2, tok2)
          else functionBody fname t fuel pos2 tok2 (nesting - 1) (stmts + 1) prelude acc
        else if tok = Token.LBRACE then
          functionBody fname t fuel pos2 tok2 (nesting + 1) stmts prelude acc
        else if tok = Token.SEMI then
          functionBody fname t fuel pos2 tok2 nesting (stmts + 1) prelude acc
        else if clearsTok tok then
          functionBody fname t fuel pos2 tok2 nesting stmts false acc
        else if isAssertionMacro tok then
          if tok2 = Token.LPAREN then
            match assertionContents t pos2 with
            | .error e => .error e
            | .ok (contents, pos3) =>
              functionBody fname t fuel pos3 Token.RPAREN nesting stmts prelude
                (acc ++ [⟨contents.map String.mk, fname, pos2, prelude, stmts⟩])
          else functionBody fname t fuel pos2 tok2 nesting stmts prelude acc
        else functionBody fname t fuel pos2 tok2 nesting stmts prelude acc

/-- `Gather.class_body`: `}` returns to the caller, `{` enters a function
body (nesting 1, statements 0, prelude true) and continues afterwards. -/
def classBody (fname : String) (t : List Char) :
    Nat → Nat → Token → List Assertion →
    Except ScanErr (List Assertion × Nat × Token)
  | fuel, pos, tok, acc =>
    if tok = Token.EOF then .ok (acc, pos, tok)
    else match fuel with
    | 0 => .error .fuel
    | fuel + 1 =>
      match nextToken t (t.length + 1) pos with
      | .error e => .error e
      | .ok (tok2, pos2) =>
        if tok = Token.RBRACE then .ok (acc, pos2, tok2)
        else if tok = Token.LBRACE then
          match functionBody fname t fuel pos2 tok2 1 0 true acc with
          | .error e => .error e
          | .ok (acc2, pos3, tok3) => classBody fname t fuel pos3 tok3 acc2
        else classBody fname t fuel pos2 tok2 acc

/-- `Gather.class_header`: a bare `;` (forward declaration) returns, a `{`
tail-calls `class_body`. -/
def classHeader (fname : String) (t : List Char) :
    Nat → Nat → Token → List Assertion →
    Except ScanErr (List Assertion × Nat × Token)
  | fuel, pos, tok, acc =>
    if tok = Token.EOF then .ok (acc, pos, tok)
    else match fuel with
    | 0 => .error .fuel
    | fuel + 1 =>
      match nextToken t (t.length + 1) pos with
      | .error e => .error e
      | .ok (tok2, pos2) =>
        if tok = Token.SEMI then .ok (acc, pos2, tok2)
        else if tok = Token.LBRACE then classBody fname t fuel pos2 tok2 acc
        else classHeader fname t fuel pos2 tok2 acc

/-- `Gather.outer`: the identifier `class` enters a class header, `{`
enters a function body; at end of input the gathered assertions are
returned. -/
def outer (fname : String) (t : List Char) :
    Nat → Nat → Token → List Assertion → Except ScanErr (List Assertion)
  | fuel, pos, tok, acc =>
    if tok = Token.EOF then .ok acc
    else match fuel with
    | 0 => .error .fuel
    | fuel + 1 =>
      match nextToken t (t.length + 1) pos with
      | .error e => .error e
      | .ok (tok2, pos2) =>
        if tok.is_id "class".toList then
          match classHeader fname t fuel pos2 tok2 acc with
          | .error e => .error e
          | .ok (acc2, pos3, tok3) => outer fname t fuel pos3 tok3 acc2
        else if tok = Token.LBRACE then
          match functionBody fname t fuel pos2 tok2 1 0 true acc with
          | .error e => .error e
          | .ok (acc2, pos3, tok3) => outer fname t fuel pos3 tok3 acc2
        else outer fname t fuel pos2 tok2 acc

/-- `Gather(file_name, text).outer()`: a fresh tokenizer at cursor 0 with
current token `START` and an empty assertion list.  The fuel bound covers
any run (every loop iteration consumes at least one character or ends the
file). -/
def scan (fname : String) (text : String) : Except ScanErr (List Assertion) :=
  outer fname text.toList (text.toList.length + 4) 0 Token.START []

/-- The driver loop of `main`: scan each named file in order, accumulating
`assertions += a`; a raised error aborts the run, as in the source. -/
def gatherAll : List (String × String) → Except ScanErr (List Assertion)
  | [] => .ok []
  | (fname, text) :: rest =>
    match scan fname text with
    | .error e => .error e
    | .ok a =>
      match gatherAll rest with
      | .error e => .error e
      | .ok b => .ok (a ++ b)

/-!
Instrumentation for the history invariants of `function_body`: an event
trace records, in order, every token the lexer returned to the
function-body loop and every `Assertion` the loop emitted.  The
instrumented `functionBodyEv` below is `functionBody` with this trace
added; `functionBody_eq_eraseEv` proves that erasing the trace recovers
`functionBody` exactly.
-/

/-- One observable event of the function-body loop. -/
inductive Event where
  | tok (t : Token)
  | assert (a : Assertion)
deriving DecidableEq, Repr

/-- Prepend an event to the trace of a loop outcome. -/
def consEv (e : Event) :
    Except ScanErr (List Event × List Assertion × Nat × Token) →
    Except ScanErr (List Event × List Assertion × Nat × Token)
  | .error er => .error er
  | .ok (evs, rest) => .ok (e :: evs, rest)

/-- Forget the event trace of a loop outcome. -/
def eraseEv :
    Except ScanErr (List Event × List Assertion × Nat × Token) →
    Except ScanErr (List Assertion × Nat × Token)
  | .error er => .error er
  | .ok (_, rest) => .ok rest

/-- `Gather.function_body`, instrumented with the event trace. -/
def functionBodyEv (fname : String) (t : List Char) :
    Nat → Nat → Token → Nat → Nat → Bool → List Assertion →
    Except ScanErr (List Event × List Assertion × Nat × Token)
  | fuel, pos, tok, nesting, stmts, prelude, acc =>
    if tok = Token.EOF then .ok ([], acc, pos, tok)
    else match fuel with
    | 0 => .error .fuel
    | fuel + 1 =>
      match nextToken t (t.length + 1) pos with
      | .error e => .error e
      | .ok (tok2, pos2) =>
        if tok = Token.RBRACE then
          if nesting - 1 = 0 then .ok ([Event.tok tok], acc, pos2, tok2)
          else consEv (Event.tok tok)
            (functionBodyEv fname t fuel pos2 tok2 (nesting - 1) (stmts + 1) prelude acc)
        else if tok = Token.LBRACE then
          consEv (Event.tok tok)
            (functionBodyEv fname t fuel pos2 tok2 (nesting + 1) stmts prelude acc)
        else if tok = Token.SEMI then
          consEv (Event.tok tok)
            (functionBodyEv fname t fuel pos2 tok2 nesting (stmts + 1) prelude acc)
        else if clearsTok tok then
          consEv (Event.tok tok)
            (functionBodyEv fname t fuel pos2 tok2 nesting stmts false acc)
        else if isAssertionMacro tok then
          if tok2 = Token.LPAREN then
            match assertionContents t pos2 with
            | .error e => .error e
            | .ok (contents, pos3) =>
              consEv (Event.tok tok)
                (consEv (Event.assert ⟨contents.map String.mk, fname, pos2, prelude, stmts⟩)
                  (functionBodyEv fname t fuel pos3 Token.RPAREN nesting stmts prelude
                    (acc ++ [⟨contents.map String.mk, fname, pos2, prelude, stmts⟩])))
          else consEv (Event.tok tok)
            (functionBodyEv fname t fuel pos2 tok2 nesting stmts prelude acc)
        else consEv (Event.tok tok)
          (functionBodyEv fname t fuel pos2 tok2 nesting stmts prelude acc)

/-- Is an event a returned `;` token or a returned `}` token (the tokens
`Gather.function_body` counts as statements)? -/
def isStmtEv : Event → Bool
  | Event.tok Token.SEMI => true
  | Event.tok Token.RBRACE => true
  | _ => false

/-- Number of `;` tokens plus `}` tokens among the events. -/
def stmtEvCount (evs : List Event) : Nat :=
  evs.countP isStmtEv

/-- Does an event clear the prelude flag? (`=`, `(` or an `OTHER` token.) -/
def evClears : Event → Bool
  | Event.tok tk => clearsTok tk
  | Event.assert _ => false

theorem isStmtEv_tok_false {tk : Token} (h1 : tk ≠ Token.SEMI) (h2 : tk ≠ Token.RBRACE) :
    isStmtEv (Event.tok tk) = false := by
  cases tk <;> simp_all [isStmtEv]

theorem eraseEv_consEv (e : Event) (r : Except ScanErr (List Event × List Assertion × Nat × Token)) :
    eraseEv (consEv e r) = eraseEv r := by
  cases r with
  | error er => rfl
  | ok x => rfl

theorem consEv_eq_ok {e : Event} {r : Except ScanErr (List Event × List Assertion × Nat × Token)}
    {evs : List Event} {rest : List Assertion × Nat × Token}
    (h : consEv e r = .ok (evs, rest)) :
    ∃ evs2, r = .ok (evs2, rest) ∧ evs = e :: evs2 := by
  cases r with
  | error er => cases h
  | ok x =>
    obtain ⟨evs0, rest0⟩ := x
    simp only [consEv, Except.ok.injEq, Prod.mk.injEq] at h
    exact ⟨evs0, by rw [h.2], h.1.symm⟩

/-- Erasing the event trace of the instrumented loop gives back
`Gather.function_body` exactly. -/
theorem functionBody_eq_eraseEv (fname : String) (t : List Char) :
    ∀ (fuel pos : Nat) (tok : Token) (nesting stmts : Nat) (prelude : Bool) (acc : List Assertion),
      functionBody fname t fuel pos tok nesting stmts prelude acc
        = eraseEv (functionBodyEv fname t fuel pos tok nesting stmts prelude acc) := by
  intro fuel
  induction fuel with
  | zero =>
    intro pos tok nesting stmts prelude acc
    rw [functionBody, functionBodyEv]
    split
    · rfl
    · rfl
  | succ fuel ih =>
    intro pos tok nesting stmts prelude acc
    rw [functionBody, functionBodyEv]
    by_cases htok : tok = Token.EOF
    · simp [htok, eraseEv]
    · simp only [if_neg htok]
      cases hnt : nextToken t (t.length + 1) pos with
      | error e => rfl
      | ok r =>
        obtain ⟨tok2, pos2⟩ := r
        by_cases h1 : tok = Token.RBRACE
        · simp only [if_pos h1]
          by_cases h2 : nesting - 1 = 0
          · simp [h2, eraseEv]
          · simp only [if_neg h2, eraseEv_consEv]
            exact ih pos2 tok2 (nesting - 1) (stmts + 1) prelude acc
        · simp only [if_neg h1]
          by_cases h2 : tok = Token.LBRACE
          · simp only [if_pos h2, eraseEv_consEv]
            exact ih pos2 tok2 (nesting + 1) stmts prelude acc
          · simp only [if_neg h2]
            by_cases h3 : tok = Token.SEMI
            · simp only [if_pos h3, eraseEv_consEv]
              exact ih pos2 tok2 nesting (stmts + 1) prelude acc
            · simp only [if_neg h3]
              by_cases h4 : clearsTok tok
              · simp only [if_pos h4, eraseEv_consEv]
                exact ih pos2 tok2 nesting stmts false acc
              · simp only [if_neg h4]
                by_cases h5 : isAssertionMacro tok
                · simp only [if_pos h5]
                  by_cases h6 : tok2 = Token.LPAREN
                  · simp only [if_pos h6]
                    cases hac : assertionContents t pos2 with
                    | error e => rfl
                    | ok rc =>
                      obtain ⟨contents, pos3⟩ := rc
                      simp only [eraseEv_consEv]
                      exact ih pos3 Token.RPAREN nesting stmts prelude _
                  · simp only [if_neg h6, eraseEv_consEv]
                    exact ih pos2 tok2 nesting stmts prelude acc
                · simp only [if_neg h5, eraseEv_consEv]
                  exact ih pos2 tok2 nesting stmts prelude acc

/-- In a successful instrumented run whose entry token is not `EOF`, the
first event is the return of that entry token. -/
theorem functionBodyEv_head (fname : String) (t : List Char) (fuel pos : Nat) (tok : Token)
    (nesting stmts : Nat) (prelude : Bool) (acc : List Assertion)
    (evs : List Event) (rest : List Assertion × Nat × Token)
    (hne : tok ≠ Token.EOF)
    (h : functionBodyEv fname t fuel pos tok nesting stmts prelude acc = .ok (evs, rest)) :
    ∃ evs2, evs = Event.tok tok :: evs2 := by
  cases fuel with
  | zero =>
    rw [functionBodyEv] at h
    simp only [if_neg hne] at h
    cases h
  | succ fuel =>
    rw [functionBodyEv] at h
    simp only [if_neg hne] at h
    cases hnt : nextToken t (t.length + 1) pos with
    | error e => rw [hnt] at h; cases h
    | ok r =>
      obtain ⟨tok2, pos2⟩ := r
      rw [hnt] at h
      by_cases h1 : tok = Token.RBRACE
      · simp only [if_pos h1] at h
        by_cases h2 : nesting - 1 = 0
        · simp only [if_pos h2, Except.ok.injEq, Prod.mk.injEq] at h
          exact ⟨[], by rw [← h.1, h1]⟩
        · simp only [if_neg h2] at h
          obtain ⟨evs2, _, hevs⟩ := consEv_eq_ok h
          exact ⟨evs2, hevs⟩
      · simp only [if_neg h1] at h
        by_cases h2 : tok = Token.LBRACE
        · simp only [if_pos h2] at h
          obtain ⟨evs2, _, hevs⟩ := consEv_eq_ok h
          exact ⟨evs2, hevs⟩
        · simp only [if_neg h2] at h
          by_cases h3 : tok = Token.SEMI
          · simp only [if_pos h3] at h
            obtain ⟨evs2, _, hevs⟩ := consEv_eq_ok h
            exact ⟨evs2, hevs⟩
          · simp only [if_neg h3] at h
            by_cases h4 : clearsTok tok
            · simp only [if_pos h4] at h
              obtain ⟨evs2, _, hevs⟩ := consEv_eq_ok h
              exact ⟨evs2, hevs⟩
            · simp only [if_neg h4] at h
              by_cases h5 : isAssertionMacro tok
              · simp only [if_pos h5] at h
                by_cases h6 : tok2 = Token.LPAREN
                · simp only [if_pos h6] at h
                  cases hac : assertionContents t pos2 with
                  | error e => rw [hac] at h; cases h
                  | ok rc =>
                    obtain ⟨contents, pos3⟩ := rc
                    rw [hac] at h
                    obtain ⟨evs2, _, hevs⟩ := consEv_eq_ok h
                    exact ⟨evs2, hevs⟩
                · simp only [if_neg h6] at h
                  obtain ⟨evs2, _, hevs⟩ := consEv_eq_ok h
                  exact ⟨evs2, hevs⟩
              · simp only [if_neg h5] at h
                obtain ⟨evs2, _, hevs⟩ := consEv_eq_ok h
                exact ⟨evs2, hevs⟩


/-- An assert event is not a counted statement token. -/
theorem isStmtEv_assert (a : Assertion) : isStmtEv (Event.assert a) = false := rfl

/--
Master history invariant of the instrumented function-body loop: at every
emitted assertion, the statement count equals the entry count plus the
number of `;` and `}` tokens returned so far, the prelude flag is the entry
flag conjoined with "no clearing token returned so far", the event directly
before the assertion is the returned macro-name token, and the next token
returned after it is `)`.
-/
theorem functionBodyEv_assert_inv (fname : String) (t : List Char) :
    ∀ (fuel pos : Nat) (tok : Token) (nesting stmts : Nat) (prelude : Bool)
      (acc : List Assertion) (evs : List Event) (rest : List Assertion × Nat × Token),
      functionBodyEv fname t fuel pos tok nesting stmts prelude acc = .ok (evs, rest) →
      ∀ (pre post : List Event) (a : Assertion), evs = pre ++ Event.assert a :: post →
        a.stmts = stmts + stmtEvCount pre ∧
        a.prelude = (prelude && !(pre.any evClears)) ∧
        (∃ pre2 m, pre = pre2 ++ [Event.tok m] ∧ isAssertionMacro m = true) ∧
        (∃ post2, post = Event.tok Token.RPAREN :: post2) := by
  intro fuel
  induction fuel with
  | zero =>
    intro pos tok nesting stmts prelude acc evs rest h pre post a hsplit
    rw [functionBodyEv] at h
    by_cases htok : tok = Token.EOF
    · simp only [if_pos htok, Except.ok.injEq, Prod.mk.injEq] at h
      rw [← h.1] at hsplit
      simp at hsplit
    · simp only [if_neg htok] at h
      cases h
  | succ fuel ih =>
    intro pos tok nesting stmts prelude acc evs rest h pre post a hsplit
    rw [functionBodyEv] at h
    by_cases htok : tok = Token.EOF
    · simp only [if_pos htok, Except.ok.injEq, Prod.mk.injEq] at h
      rw [← h.1] at hsplit
      simp at hsplit
    · simp only [if_neg htok] at h
      cases hnt : nextToken t (t.length + 1) pos with
      | error e => rw [hnt] at h; cases h
      | ok r =>
        obtain ⟨tok2, pos2⟩ := r
        rw [hnt] at h
        by_cases h1 : tok = Token.RBRACE
        · simp only [if_pos h1] at h
          by_cases h2 : nesting - 1 = 0
          · simp only [if_pos h2, Except.ok.injEq, Prod.mk.injEq] at h
            rw [← h.1] at hsplit
            cases pre with
            | nil => simp at hsplit
            | cons e pre' =>
              simp only [List.cons_append, List.cons.injEq] at hsplit
              obtain ⟨-, hsplit2⟩ := hsplit
              cases pre' with
              | nil => simp at hsplit2
              | cons e2 p2 => simp at hsplit2
          · simp only [if_neg h2] at h
            obtain ⟨evs0, h0, hevs⟩ := consEv_eq_ok h
            rw [hevs] at hsplit
            cases pre with
            | nil => simp at hsplit
            | cons e pre' =>
              simp only [List.cons_append, List.cons.injEq] at hsplit
              obtain ⟨he, hsplit2⟩ := hsplit
              subst he
              subst h1
              obtain ⟨hs, hp, hm, hr⟩ :=
                ih pos2 tok2 (nesting - 1) (stmts + 1) prelude acc evs0 rest h0 pre' post a hsplit2
              refine ⟨?_, ?_, ?_, hr⟩
              · simp [stmtEvCount, List.countP_cons, isStmtEv] at hs ⊢
                omega
              · simpa [List.any_cons, evClears, clearsTok] using hp
              · obtain ⟨p2, m, hpre, hmac⟩ := hm
                subst hpre
                exact ⟨Event.tok Token.RBRACE :: p2, m, by simp, hmac⟩
        · simp only [if_neg h1] at h
          by_cases h2 : tok = Token.LBRACE
          · simp only [if_pos h2] at h
            obtain ⟨evs0, h0, hevs⟩ := consEv_eq_ok h
            rw [hevs] at hsplit
            cases pre with
            | nil => simp at hsplit
            | cons e pre' =>
              simp only [List.cons_append, List.cons.injEq] at hsplit
              obtain ⟨he, hsplit2⟩ := hsplit
              subst he
              subst h2
              obtain ⟨hs, hp, hm, hr⟩ :=
                ih pos2 tok2 (nesting + 1) stmts prelude acc evs0 rest h0 pre' post a hsplit2
              refine ⟨?_, ?_, ?_, hr⟩
              · simp [stmtEvCount, List.countP_cons, isStmtEv] at hs ⊢
                omega
              · simpa [List.any_cons, evClears, clearsTok] using hp
              · obtain ⟨p2, m, hpre, hmac⟩ := hm
                subst hpre
                exact ⟨Event.tok Token.LBRACE :: p2, m, by simp, hmac⟩
          · simp only [if_neg h2] at h
            by_cases h3 : tok = Token.SEMI
            · simp only [if_pos h3] at h
              obtain ⟨evs0, h0, hevs⟩ := consEv_eq_ok h
              rw [hevs] at hsplit
              cases pre with
              | nil => simp at hsplit
              | cons e pre' =>
                simp only [List.cons_append, List.cons.injEq] at hsplit
                obtain ⟨he, hsplit2⟩ := hsplit
                subst he
                subst h3
                obtain ⟨hs, hp, hm, hr⟩ :=
                  ih pos2 tok2 nesting (stmts + 1) prelude acc evs0 rest h0 pre' post a hsplit2
                refine ⟨?_, ?_, ?_, hr⟩
                · simp [stmtEvCount, List.countP_cons, isStmtEv] at hs ⊢
                  omega
                · simpa [List.any_cons, evClears, clearsTok] using hp
                · obtain ⟨p2, m, hpre, hmac⟩ := hm
                  subst hpre
                  exact ⟨Event.tok Token.SEMI :: p2, m, by simp, hmac⟩
            · simp only [if_neg h3] at h
              by_cases h4 : clearsTok tok
              · simp only [if_pos h4] at h
                obtain ⟨evs0, h0, hevs⟩ := consEv_eq_ok h
                rw [hevs] at hsplit
                cases pre with
                | nil => simp at hsplit
                | cons e pre' =>
                  simp only [List.cons_append, List.cons.injEq] at hsplit
                  obtain ⟨he, hsplit2⟩ := hsplit
                  subst he
                  obtain ⟨hs, hp, hm, hr⟩ :=
                    ih pos2 tok2 nesting stmts false acc evs0 rest h0 pre' post a hsplit2
                  refine ⟨?_, ?_, ?_, hr⟩
                  · simp [stmtEvCount, List.countP_cons, isStmtEv_tok_false h3 h1] at hs ⊢
                    omega
                  · simp only [List.any_cons, evClears, h4, Bool.true_or, Bool.not_true,
                      Bool.and_false]
                    simpa using hp
                  · obtain ⟨p2, m, hpre, hmac⟩ := hm
                    subst hpre
                    exact ⟨Event.tok tok :: p2, m, by simp, hmac⟩
              · simp only [if_neg h4] at h
                have hcf : clearsTok tok = false := by simpa using h4
                by_cases h5 : isAssertionMacro tok
                · simp only [if_pos h5] at h
                  by_cases h6 : tok2 = Token.LPAREN
                  · simp only [if_pos h6] at h
                    cases hac : assertionContents t pos2 with
                    | error e => rw [hac] at h; cases h
                    | ok rc =>
                      obtain ⟨contents, pos3⟩ := rc
                      rw [hac] at h
                      obtain ⟨evs0, h0, hevs⟩ := consEv_eq_ok h
                      obtain ⟨evs1, h01, hevs0⟩ := consEv_eq_ok h0
                      rw [hevs, hevs0] at hsplit
                      cases pre with
                      | nil => simp at hsplit
                      | cons e pre' =>
                        simp only [List.cons_append, List.cons.injEq] at hsplit
                        obtain ⟨he, hsplit2⟩ := hsplit
                        subst he
                        cases pre' with
                        | nil =>
                          simp only [List.nil_append, List.cons.injEq] at hsplit2
                          obtain ⟨hA, hpost⟩ := hsplit2
                          injection hA with hA2
                          refine ⟨?_, ?_, ?_, ?_⟩
                          · rw [← hA2]
                            simp [stmtEvCount, List.countP_cons, isStmtEv_tok_false h3 h1]
                          · rw [← hA2]
                            simp [List.any_cons, evClears, hcf]
                          · exact ⟨[], tok, rfl, h5⟩
                          · obtain ⟨evs2, hevs1⟩ := functionBodyEv_head fname t fuel pos3
                              Token.RPAREN nesting stmts prelude _ evs1 rest (by simp) h01
                            exact ⟨evs2, by rw [← hpost, hevs1]⟩
                        | cons e2 pre2 =>
                          simp only [List.cons_append, List.cons.injEq] at hsplit2
                          obtain ⟨he2, hsplit3⟩ := hsplit2
                          subst he2
                          obtain ⟨hs, hp, hm, hr⟩ :=
                            ih pos3 Token.RPAREN nesting stmts prelude _ evs1 rest h01 pre2 post a hsplit3
                          refine ⟨?_, ?_, ?_, hr⟩
                          · simp [stmtEvCount, List.countP_cons,
                              isStmtEv_tok_false h3 h1, isStmtEv_assert] at hs ⊢
                            omega
                          · simpa [List.any_cons, evClears, hcf] using hp
                          · obtain ⟨p2, m, hpre, hmac⟩ := hm
                            subst hpre
                            refine ⟨Event.tok tok ::
                              Event.assert ⟨contents.map String.mk, fname, pos2, prelude, stmts⟩ :: p2,
                              m, by simp, hmac⟩
                  · simp only [if_neg h6] at h
                    obtain ⟨evs0, h0, hevs⟩ := consEv_eq_ok h
                    rw [hevs] at hsplit
                    cases pre with
                    | nil => simp at hsplit
                    | cons e pre' =>
                      simp only [List.cons_append, List.cons.injEq] at hsplit
                      obtain ⟨he, hsplit2⟩ := hsplit
                      subst he
                      obtain ⟨hs, hp, hm, hr⟩ :=
                        ih pos2 tok2 nesting stmts prelude acc evs0 rest h0 pre' post a hsplit2
                      refine ⟨?_, ?_, ?_, hr⟩
                      · simp [stmtEvCount, List.countP_cons,
                          isStmtEv_tok_false h3 h1] at hs ⊢
                        omega
                      · simpa [List.any_cons, evClears, hcf] using hp
                      · obtain ⟨p2, m, hpre, hmac⟩ := hm
                        subst hpre
                        exact ⟨Event.tok tok :: p2, m, by simp, hmac⟩
                · simp only [if_neg h5] at h
                  obtain ⟨evs0, h0, hevs⟩ := consEv_eq_ok h
                  rw [hevs] at hsplit
                  cases pre with
                  | nil => simp at hsplit
                  | cons e pre' =>
                    simp only [List.cons_append, List.cons.injEq] at hsplit
                    obtain ⟨he, hsplit2⟩ := hsplit
                    subst he
                    obtain ⟨hs, hp, hm, hr⟩ :=
                      ih pos2 tok2 nesting stmts prelude acc evs0 rest h0 pre' post a hsplit2
                    refine ⟨?_, ?_, ?_, hr⟩
                    · simp [stmtEvCount, List.countP_cons,
                        isStmtEv_tok_false h3 h1] at hs ⊢
                      omega
                    · simpa [List.any_cons, evClears, hcf] using hp
                    · obtain ⟨p2, m, hpre, hmac⟩ := hm
                      subst hpre
                      exact ⟨Event.tok tok :: p2, m, by simp, hmac⟩

/-!
Claim theorems.
-/

/-- C2: for input `void f() { NS_ASSERTION(x > 0, "msg"); }`, scanning
returns exactly one Assertion whose argument-expressions are the trimmed
strings `x > 0` and `"msg"`, with prelude = true and statement count = 0
(and the offset just past the macro's opening parenthesis). -/
theorem c2_single_assertion_two_args :
    scan "f" "void f() \x7b NS_ASSERTION(x > 0, \"msg\"); \x7d" =
      .ok [⟨["x > 0", "\"msg\""], "f", 24, true, 0⟩] := by
  rfl

/-- C5: argument-list capture splits only on commas at parenthesis depth 1:
for `NS_ASSERTION(f(a,b), "m")` inside a function body the captured
argument-expressions are exactly `f(a,b)` and `"m"`; the comma inside the
nested `f(a,b)` does not split the first segment. -/
theorem c5_nested_paren_comma_not_split :
    scan "f" "void f() \x7b NS_ASSERTION(f(a,b), \"m\"); \x7d" =
      .ok [⟨["f(a,b)", "\"m\""], "f", 24, true, 0⟩] := by
  rfl

/-- C9: argument-list capture gives string literals no special treatment:
a comma inside a string literal at depth 1 splits the list, so
`NS_ASSERTION(a, "x,y")` captures the three segments `a`, `"x`, `y"`;
likewise a parenthesis inside a string literal perturbs the depth counter,
so in `NS_ASSERTION(a, "(x", b))` the first `)` merely closes the depth
opened by the `(` inside the string and the second segment is `"(x", b)`. -/
theorem c9_strings_not_special_in_capture :
    scan "f" "void f() \x7b NS_ASSERTION(a, \"x,y\"); \x7d" =
      .ok [⟨["a", "\"x", "y\""], "f", 24, true, 0⟩] ∧
    scan "f" "void f() \x7b NS_ASSERTION(a, \"(x\", b)); \x7d" =
      .ok [⟨["a", "\"(x\", b)"], "f", 24, true, 0⟩] := by
  exact ⟨by rfl, by rfl⟩

/-- C3 counterexample: `next_token` has no branch for `<` or `>` (the
`TOK_LT` / `TOK_GT` constants are never produced): at a `<` character it
returns a token of the `OTHER` kind, not of the `<` kind, and consequently
a bare `<` in a function body clears the prelude flag — for input
`void f() { a < b; NS_ASSERTION(a); }` the emitted Assertion has
prelude = false, contradicting the claim. -/
theorem c3_angle_counterexample :
    nextToken ['<'] 1 0 = .ok (Token.OTHER '<', 1) ∧
    nextToken ['>'] 1 0 = .ok (Token.OTHER '>', 1) ∧
    (Token.OTHER '<' ≠ Token.LT ∧ Token.OTHER '>' ≠ Token.GT) ∧
    scan "f" "void f() \x7b a < b; NS_ASSERTION(a); \x7d" =
      .ok [⟨["a"], "f", 31, false, 1⟩] := by
  exact ⟨by rfl, by rfl, ⟨by decide, by decide⟩, by rfl⟩

/-- C3 (amended): when `next_token` reaches a `<` or `>` character outside
strings and comments it produces a token of the other-single-character
kind carrying that character (the `<` and `>` kinds of the enumeration are
never produced), and such a token clears the prelude flag. -/
theorem c3_amended_angle_lexes_as_other :
    (∀ (t rest : List Char) (fuel pos : Nat), t.drop pos = '<' :: rest →
        nextToken t (fuel + 1) pos = .ok (Token.OTHER '<', pos + 1)) ∧
    (∀ (t rest : List Char) (fuel pos : Nat), t.drop pos = '>' :: rest →
        nextToken t (fuel + 1) pos = .ok (Token.OTHER '>', pos + 1)) ∧
    clearsTok (Token.OTHER '<') = true ∧ clearsTok (Token.OTHER '>') = true := by
  refine ⟨?_, ?_, by rfl, by rfl⟩
  all_goals
    intro t rest fuel pos hdrop
    have hlt : pos < t.length := by
      by_contra hq
      rw [List.drop_eq_nil_of_le (by omega)] at hdrop
      cases hdrop
    have hc := List.drop_eq_getElem_cons hlt
    rw [hdrop] at hc
    rw [nextToken]
    simp [hlt, startsWithAt, hdrop, (List.cons.injEq _ _ _ _ ▸ hc).1.symm,
      pyIsSpace, pyIsAlpha, pyIsDigit]

/-- Witness for C3's amended theorem at concrete inputs. -/
theorem c3_amended_angle_witness :
    nextToken ['a', '<'] 3 1 = .ok (Token.OTHER '<', 2) ∧
    nextToken ['a', '>'] 3 1 = .ok (Token.OTHER '>', 2) :=
  ⟨c3_amended_angle_lexes_as_other.1 ['a', '<'] [] 2 1 rfl,
   c3_amended_angle_lexes_as_other.2.1 ['a', '>'] [] 2 1 rfl⟩

/-- C4: when end of input is reached while the function-body nesting
counter is still positive, every scanner loop simply observes the `EOF`
token and returns the assertions gathered so far — no error is raised; in
particular scanning the truncated input `void f() { NS_ASSERTION(a);`
succeeds with the one gathered Assertion. -/
theorem c4_eof_inside_body_returns_gathered :
    (∀ (fname : String) (t : List Char) (fuel pos nesting stmts : Nat) (prelude : Bool)
        (acc : List Assertion), 0 < nesting →
        functionBody fname t fuel pos Token.EOF nesting stmts prelude acc =
          .ok (acc, pos, Token.EOF)) ∧
    (∀ (fname : String) (t : List Char) (fuel pos : Nat) (acc : List Assertion),
        outer fname t fuel pos Token.EOF acc = .ok acc) ∧
    scan "f" "void f() \x7b NS_ASSERTION(a);" = .ok [⟨["a"], "f", 24, true, 0⟩] := by
  refine ⟨?_, ?_, by rfl⟩
  · intro fname t fuel pos nesting stmts prelude acc hn
    rw [functionBody.eq_def]
    simp
  · intro fname t fuel pos acc
    rw [outer.eq_def]
    simp

/-- Witness for C4 at a concrete input with nesting 2 at end of input. -/
theorem c4_eof_witness :
    functionBody "f" [] 5 0 Token.EOF 2 3 true [⟨["a"], "f", 24, true, 0⟩] =
      .ok ([⟨["a"], "f", 24, true, 0⟩], 0, Token.EOF) :=
  c4_eof_inside_body_returns_gathered.1 "f" [] 5 0 2 3 true
    [⟨["a"], "f", 24, true, 0⟩] (by decide)

/-- C6: an unterminated string literal surfaces the UnterminatedString
parse error: whenever the lexer reaches a `"` character and
`find_string_end` fails, `next_token` propagates that error; whenever
`next_token` fails, the outer scanner loop propagates the error instead of
returning assertions; and scanning the input `"abc` yields exactly the
UnterminatedString error at offset 0 and no Assertion list. -/
theorem c6_unterminated_string_error :
    (∀ (t rest : List Char) (fuel pos : Nat) (e : ScanErr),
        t.drop pos = '"' :: rest →
        findStringEnd t pos = .error e →
        nextToken t (fuel + 1) pos = .error e) ∧
    (∀ (fname : String) (t : List Char) (fuel pos : Nat) (tok : Token)
        (acc : List Assertion) (e : ScanErr),
        tok ≠ Token.EOF →
        nextToken t (t.length + 1) pos = .error e →
        outer fname t (fuel + 1) pos tok acc = .error e) ∧
    scan "f" "\"abc" = .error (.parse ⟨"Unterminated string", 0⟩) := by
  refine ⟨?_, ?_, by rfl⟩
  · intro t rest fuel pos e hdrop hfse
    have hlt : pos < t.length := by
      by_contra hq
      rw [List.drop_eq_nil_of_le (by omega)] at hdrop
      cases hdrop
    rw [nextToken]
    simp [hlt, startsWithAt, hdrop, hfse]
  · intro fname t fuel pos tok acc e hne hnt
    rw [outer.eq_def]
    simp only [if_neg hne]
    rw [hnt]

/-- Witness for C6 at the concrete input `"ab`. -/
theorem c6_unterminated_string_witness :
    nextToken "\"ab".toList 6 0 = .error (.parse ⟨"Unterminated string", 0⟩) ∧
    outer "f" "\"ab".toList 6 0 Token.START [] =
      .error (.parse ⟨"Unterminated string", 0⟩) :=
  ⟨c6_unterminated_string_error.1 "\"ab".toList ['a', 'b'] 5 0
      (.parse ⟨"Unterminated string", 0⟩) rfl rfl,
   c6_unterminated_string_error.2.1 "f" "\"ab".toList 5 0 Token.START []
      (.parse ⟨"Unterminated string", 0⟩) (by decide) rfl⟩

/-- C10: scanning is deterministic and free of hidden shared state: in the
driver run, two successive scans of the same (identifier, text) pair
contribute two identical Assertion sequences, unaffected by whatever files
were scanned before them. -/
theorem c10_rescan_deterministic :
    ∀ (pre : List (String × String)) (fname text : String) (as1 as2 : List Assertion),
      gatherAll pre = .ok as1 → scan fname text = .ok as2 →
      gatherAll (pre ++ [(fname, text), (fname, text)]) = .ok (as1 ++ (as2 ++ as2)) := by
  intro pre
  induction pre with
  | nil =>
    intro fname text as1 as2 hpre hscan
    simp only [gatherAll, Except.ok.injEq] at hpre
    simp [gatherAll, hscan, ← hpre]
  | cons p ps ih =>
    intro fname text as1 as2 hpre hscan
    obtain ⟨n, s⟩ := p
    rw [gatherAll] at hpre
    cases hp1 : scan n s with
    | error e => rw [hp1] at hpre; cases hpre
    | ok a =>
      rw [hp1] at hpre
      cases hp2 : gatherAll ps with
      | error e => rw [hp2] at hpre; cases hpre
      | ok b =>
        rw [hp2] at hpre
        simp only [Except.ok.injEq] at hpre
        rw [List.cons_append, gatherAll, hp1, ih fname text b as2 hp2 hscan]
        rw [← hpre]
        simp

/-- Witness for C10: a scan of one file followed by a double scan of a
second file yields the second file's result twice. -/
theorem c10_rescan_witness :
    gatherAll [("g", "int x;"), ("f", "void f() \x7b NS_ASSERTION(q); \x7d"),
        ("f", "void f() \x7b NS_ASSERTION(q); \x7d")] =
      .ok ([] ++ ([⟨["q"], "f", 24, true, 0⟩] ++ [⟨["q"], "f", 24, true, 0⟩])) :=
  c10_rescan_deterministic [("g", "int x;")] "f" "void f() \x7b NS_ASSERTION(q); \x7d"
    [] [⟨["q"], "f", 24, true, 0⟩] (by rfl) (by rfl)

/-- C1: every Assertion emitted by the function-body loop has statement
count equal to the number of `;` tokens plus `}` tokens returned by the
lexer since the body was entered (entry count `stmts`), measured at the
moment the macro-name token was returned (the events before the assert
event); the instrumented loop erases to the scanner's loop exactly, and
for input `void f() { int a; NS_ASSERTION(a); }` the single Assertion has
statement count 1. -/
theorem c1_stmt_count_invariant :
    (∀ (fname : String) (t : List Char) (fuel pos : Nat) (tok : Token)
        (nesting stmts : Nat) (prelude : Bool) (acc : List Assertion),
        functionBody fname t fuel pos tok nesting stmts prelude acc =
          eraseEv (functionBodyEv fname t fuel pos tok nesting stmts prelude acc)) ∧
    (∀ (fname : String) (t : List Char) (fuel pos : Nat) (tok : Token)
        (nesting stmts : Nat) (prelude : Bool) (acc : List Assertion)
        (evs : List Event) (rest : List Assertion × Nat × Token),
        functionBodyEv fname t fuel pos tok nesting stmts prelude acc = .ok (evs, rest) →
        ∀ (pre post : List Event) (a : Assertion), evs = pre ++ Event.assert a :: post →
          a.stmts = stmts + stmtEvCount pre) ∧
    scan "f" "void f() \x7b int a; NS_ASSERTION(a); \x7d" =
      .ok [⟨["a"], "f", 31, true, 1⟩] := by
  refine ⟨functionBody_eq_eraseEv, ?_, by rfl⟩
  intro fname t fuel pos tok nesting stmts prelude acc evs rest h pre post a hsplit
  exact (functionBodyEv_assert_inv fname t fuel pos tok nesting stmts prelude acc
    evs rest h pre post a hsplit).1

/-- Witness for C1: in the function body of
`void f() { int a; NS_ASSERTION(a); }`, the emitted Assertion's statement
count equals 0 plus the count of `;` and `}` tokens returned before the
macro token (here 1, from the `;` after `int a`). -/
theorem c1_stmt_count_witness :
    (⟨["a"], "f", 31, true, 1⟩ : Assertion).stmts =
      0 + stmtEvCount [Event.tok (Token.ID "int".toList), Event.tok (Token.ID "a".toList),
        Event.tok Token.SEMI, Event.tok (Token.ID "NS_ASSERTION".toList)] :=
  c1_stmt_count_invariant.2.1 "f" "void f() \x7b int a; NS_ASSERTION(a); \x7d".toList 50 14
    (Token.ID "int".toList) 1 0 true []
    [Event.tok (Token.ID "int".toList), Event.tok (Token.ID "a".toList),
     Event.tok Token.SEMI, Event.tok (Token.ID "NS_ASSERTION".toList),
     Event.assert ⟨["a"], "f", 31, true, 1⟩, Event.tok Token.RPAREN,
     Event.tok Token.SEMI, Event.tok Token.RBRACE]
    ([⟨["a"], "f", 31, true, 1⟩], 36, Token.EOF) (by rfl)
    [Event.tok (Token.ID "int".toList), Event.tok (Token.ID "a".toList),
     Event.tok Token.SEMI, Event.tok (Token.ID "NS_ASSERTION".toList)]
    [Event.tok Token.RPAREN, Event.tok Token.SEMI, Event.tok Token.RBRACE]
    ⟨["a"], "f", 31, true, 1⟩ (by rfl)

/-- C7: within a function body the prelude flag starts from the entry
value, and at every emitted Assertion it equals the entry value conjoined
with "no `=`, `(` or other-single-character token was returned so far" —
so it flips exactly on those tokens; it is monotone (an Assertion emitted
after one with prelude = false also has prelude = false); the instrumented
loop erases to the scanner's loop exactly; and for input
`void f() { a = 1; NS_ASSERTION(a); }` the Assertion has prelude = false. -/
theorem c7_prelude_invariant :
    (∀ (fname : String) (t : List Char) (fuel pos : Nat) (tok : Token)
        (nesting stmts : Nat) (prelude : Bool) (acc : List Assertion),
        functionBody fname t fuel pos tok nesting stmts prelude acc =
          eraseEv (functionBodyEv fname t fuel pos tok nesting stmts prelude acc)) ∧
    (∀ (fname : String) (t : List Char) (fuel pos : Nat) (tok : Token)
        (nesting stmts : Nat) (prelude : Bool) (acc : List Assertion)
        (evs : List Event) (rest : List Assertion × Nat × Token),
        functionBodyEv fname t fuel pos tok nesting stmts prelude acc = .ok (evs, rest) →
        ∀ (pre post : List Event) (a : Assertion), evs = pre ++ Event.assert a :: post →
          a.prelude = (prelude && !(pre.any evClears))) ∧
    (∀ (fname : String) (t : List Char) (fuel pos : Nat) (tok : Token)
        (nesting stmts : Nat) (prelude : Bool) (acc : List Assertion)
        (evs : List Event) (rest : List Assertion × Nat × Token),
        functionBodyEv fname t fuel pos tok nesting stmts prelude acc = .ok (evs, rest) →
        ∀ (pre mid post : List Event) (a b : Assertion),
          evs = pre ++ Event.assert a :: (mid ++ Event.assert b :: post) →
          a.prelude = false → b.prelude = false) ∧
    scan "f" "void f() \x7b a = 1; NS_ASSERTION(a); \x7d" =
      .ok [⟨["a"], "f", 31, false, 1⟩] := by
  refine ⟨functionBody_eq_eraseEv, ?_, ?_, by rfl⟩
  · intro fname t fuel pos tok nesting stmts prelude acc evs rest h pre post a hsplit
    exact (functionBodyEv_assert_inv fname t fuel pos tok nesting stmts prelude acc
      evs rest h pre post a hsplit).2.1
  · intro fname t fuel pos tok nesting stmts prelude acc evs rest h pre mid post a b
      hsplit ha
    have hb := (functionBodyEv_assert_inv fname t fuel pos tok nesting stmts prelude acc
      evs rest h (pre ++ Event.assert a :: mid) post b (by rw [hsplit]; simp)).2.1
    have haq := (functionBodyEv_assert_inv fname t fuel pos tok nesting stmts prelude acc
      evs rest h pre (mid ++ Event.assert b :: post) a hsplit).2.1
    rw [haq] at ha
    rw [hb]
    rcases Bool.and_eq_false_iff.mp ha with hq | hq
    · simp [hq]
    · have hq2 : pre.any evClears = true := by
        cases hq3 : pre.any evClears
        · rw [hq3] at hq; cases hq
        · rfl
      simp [List.any_append, hq2]

/-- Witness for C7 in the function body of
`void f() { a = 1; NS_ASSERTION(x); NS_ASSERTION(y); }`: the first
Assertion's prelude equals true with the clearing `=` token returned
before it (hence false), and since the first Assertion has prelude false,
so does the second. -/
theorem c7_prelude_witness :
    (⟨["x"], "f", 31, false, 1⟩ : Assertion).prelude =
      (true && !(List.any [Event.tok (Token.ID "a".toList), Event.tok Token.EQ,
        Event.tok (Token.OTHER '1'), Event.tok Token.SEMI,
        Event.tok (Token.ID "NS_ASSERTION".toList)] evClears)) ∧
    (⟨["y"], "f", 48, false, 2⟩ : Assertion).prelude = false :=
  ⟨c7_prelude_invariant.2.1 "f"
      "void f() \x7b a = 1; NS_ASSERTION(x); NS_ASSERTION(y); \x7d".toList 60 12
      (Token.ID "a".toList) 1 0 true []
      [Event.tok (Token.ID "a".toList), Event.tok Token.EQ,
       Event.tok (Token.OTHER '1'), Event.tok Token.SEMI,
       Event.tok (Token.ID "NS_ASSERTION".toList),
       Event.assert ⟨["x"], "f", 31, false, 1⟩, Event.tok Token.RPAREN,
       Event.tok Token.SEMI, Event.tok (Token.ID "NS_ASSERTION".toList),
       Event.assert ⟨["y"], "f", 48, false, 2⟩, Event.tok Token.RPAREN,
       Event.tok Token.SEMI, Event.tok Token.RBRACE]
      ([⟨["x"], "f", 31, false, 1⟩, ⟨["y"], "f", 48, false, 2⟩], 53, Token.EOF) (by rfl)
      [Event.tok (Token.ID "a".toList), Event.tok Token.EQ,
       Event.tok (Token.OTHER '1'), Event.tok Token.SEMI,
       Event.tok (Token.ID "NS_ASSERTION".toList)]
      [Event.tok Token.RPAREN, Event.tok Token.SEMI,
       Event.tok (Token.ID "NS_ASSERTION".toList),
       Event.assert ⟨["y"], "f", 48, false, 2⟩, Event.tok Token.RPAREN,
       Event.tok Token.SEMI, Event.tok Token.RBRACE]
      ⟨["x"], "f", 31, false, 1⟩ (by rfl),
   c7_prelude_invariant.2.2.1 "f"
      "void f() \x7b a = 1; NS_ASSERTION(x); NS_ASSERTION(y); \x7d".toList 60 12
      (Token.ID "a".toList) 1 0 true []
      [Event.tok (Token.ID "a".toList), Event.tok Token.EQ,
       Event.tok (Token.OTHER '1'), Event.tok Token.SEMI,
       Event.tok (Token.ID "NS_ASSERTION".toList),
       Event.assert ⟨["x"], "f", 31, false, 1⟩, Event.tok Token.RPAREN,
       Event.tok Token.SEMI, Event.tok (Token.ID "NS_ASSERTION".toList),
       Event.assert ⟨["y"], "f", 48, false, 2⟩, Event.tok Token.RPAREN,
       Event.tok Token.SEMI, Event.tok Token.RBRACE]
      ([⟨["x"], "f", 31, false, 1⟩, ⟨["y"], "f", 48, false, 2⟩], 53, Token.EOF) (by rfl)
      [Event.tok (Token.ID "a".toList), Event.tok Token.EQ,
       Event.tok (Token.OTHER '1'), Event.tok Token.SEMI,
       Event.tok (Token.ID "NS_ASSERTION".toList)]
      [Event.tok Token.RPAREN, Event.tok Token.SEMI,
       Event.tok (Token.ID "NS_ASSERTION".toList)]
      [Event.tok Token.RPAREN, Event.tok Token.SEMI, Event.tok Token.RBRACE]
      ⟨["x"], "f", 31, false, 1⟩ ⟨["y"], "f", 48, false, 2⟩ (by rfl) (by rfl)⟩

/-- C8: a recognized assertion invocation leaves the prelude flag and
statement counter unchanged: in the event trace, every assert event is
directly preceded by the returned macro-name token (so the macro's `(` and
the argument-list characters are never returned as tokens) and directly
followed by the returned `)` token (the current token set by the capture);
the instrumented loop erases to the scanner's loop exactly; and for input
`void f() { NS_ASSERTION(a); NS_ASSERTION(b); }` both Assertions have
prelude = true, the second with statement count 1. -/
theorem c8_capture_preserves_state :
    (∀ (fname : String) (t : List Char) (fuel pos : Nat) (tok : Token)
        (nesting stmts : Nat) (prelude : Bool) (acc : List Assertion),
        functionBody fname t fuel pos tok nesting stmts prelude acc =
          eraseEv (functionBodyEv fname t fuel pos tok nesting stmts prelude acc)) ∧
    (∀ (fname : String) (t : List Char) (fuel pos : Nat) (tok : Token)
        (nesting stmts : Nat) (prelude : Bool) (acc : List Assertion)
        (evs : List Event) (rest : List Assertion × Nat × Token),
        functionBodyEv fname t fuel pos tok nesting stmts prelude acc = .ok (evs, rest) →
        ∀ (pre post : List Event) (a : Assertion), evs = pre ++ Event.assert a :: post →
          (∃ pre2 m, pre = pre2 ++ [Event.tok m] ∧ isAssertionMacro m = true) ∧
          (∃ post2, post = Event.tok Token.RPAREN :: post2)) ∧
    scan "f" "void f() \x7b NS_ASSERTION(a); NS_ASSERTION(b); \x7d" =
      .ok [⟨["a"], "f", 24, true, 0⟩, ⟨["b"], "f", 41, true, 1⟩] := by
  refine ⟨functionBody_eq_eraseEv, ?_, by rfl⟩
  intro fname t fuel pos tok nesting stmts prelude acc evs rest h pre post a hsplit
  exact (functionBodyEv_assert_inv fname t fuel pos tok nesting stmts prelude acc
    evs rest h pre post a hsplit).2.2

/-- Witness for C8 in the function body of
`void f() { NS_ASSERTION(a); NS_ASSERTION(b); }`: the event directly
before the first assert is the macro-name token and the event directly
after it is the returned `)` token. -/
theorem c8_capture_witness :
    (∃ pre2 m, [Event.tok (Token.ID "NS_ASSERTION".toList)] = pre2 ++ [Event.tok m] ∧
       isAssertionMacro m = true) ∧
    (∃ post2, [Event.tok Token.RPAREN, Event.tok Token.SEMI,
        Event.tok (Token.ID "NS_ASSERTION".toList),
        Event.assert ⟨["b"], "f", 41, true, 1⟩, Event.tok Token.RPAREN,
        Event.tok Token.SEMI, Event.tok Token.RBRACE] =
        Event.tok Token.RPAREN :: post2) :=
  c8_capture_preserves_state.2.1 "f"
    "void f() \x7b NS_ASSERTION(a); NS_ASSERTION(b); \x7d".toList 50 23
    (Token.ID "NS_ASSERTION".toList) 1 0 true []
    [Event.tok (Token.ID "NS_ASSERTION".toList),
     Event.assert ⟨["a"], "f", 24, true, 0⟩, Event.tok Token.RPAREN,
     Event.tok Token.SEMI, Event.tok (Token.ID "NS_ASSERTION".toList),
     Event.assert ⟨["b"], "f", 41, true, 1⟩, Event.tok Token.RPAREN,
     Event.tok Token.SEMI, Event.tok Token.RBRACE]
    ([⟨["a"], "f", 24, true, 0⟩, ⟨["b"], "f", 41, true, 1⟩], 46, Token.EOF) (by rfl)
    [Event.tok (Token.ID "NS_ASSERTION".toList)]
    [Event.tok Token.RPAREN, Event.tok Token.SEMI,
     Event.tok (Token.ID "NS_ASSERTION".toList),
     Event.assert ⟨["b"], "f", 41, true, 1⟩, Event.tok Token.RPAREN,
     Event.tok Token.SEMI, Event.tok Token.RBRACE]
    ⟨["a"], "f", 24, true, 0⟩ (by rfl)

end AssertionAnalyzer
